import Mathlib

/-!
Verification of the terraform-sbom tool (main.go) against its design
specification.  The Go code is shallowly embedded: Go strings are lists of
characters (`Str`), the `strings` stdlib functions used by the code are
modelled over `Str`, the tfconfig collaborator's result is passed to
`generateSBOM` as an explicit argument, and each emitter is modelled as a
transformer from the previous file state to the new file contents.
-/

namespace TerraformSbom

/-- Go strings, embedded as lists of characters. -/
abbrev Str := List Char

/-- One module call as returned by the tfconfig collaborator:
`tfconfig.ModuleCall` with the fields the tool reads (Name, Source,
Version).  An absent explicit version is the empty string, as in Go. -/
structure ModuleCall where
  name : Str
  source : Str
  version : Str
deriving DecidableEq

/-- `ModuleInfo` from main.go: one SBOM record. -/
structure ModuleInfo where
  name : Str
  source : Str
  version : Str
  config : Str
deriving DecidableEq

/-- `SBOM` from main.go: the ordered list of records. -/
structure SBOM where
  modules : List ModuleInfo
deriving DecidableEq

/-- The collaborator's diagnostics: `diag.HasErrors()` and the text that
`diag.Err()` renders to. -/
structure Diagnostics where
  hasErrors : Bool
  errMsg : Str
deriving DecidableEq

/-- The collaborator's module description.  In the Go source,
`module.ModuleCalls` is a Go map (`map[string]*ModuleCall`) and the
`for ... range` loop in `generateSBOM` visits it in an order the Go
language specification leaves unspecified; `moduleCalls` here is the
sequence of module calls in the iteration order of one particular run.
Two runs over the same map may observe any two permutations. -/
structure TfModule where
  moduleCalls : List ModuleCall
deriving DecidableEq

/-- Go `strings.HasPrefix s pre`. -/
def goStartsWith (s pre : Str) : Bool :=
  pre.isPrefixOf s

/-- Go `strings.Contains s sub`: some occurrence of `sub` inside `s`. -/
def goContains : Str → Str → Bool
  | [], sub => sub.isEmpty
  | c :: t, sub => sub.isPrefixOf (c :: t) || goContains t sub

/-- Worker for `goSplit`: scans left to right; on each leftmost,
non-overlapping occurrence of `sep` it cuts a part.  The fuel argument
only serves structural recursion; `goSplit` passes enough fuel that it is
never exhausted. -/
def goSplitAux (sep : Str) : Nat → Str → Str → List Str
  | 0, s, acc => [acc.reverse ++ s]
  | fuel + 1, s, acc =>
    match s with
    | [] => [acc.reverse]
    | c :: t =>
      if sep.isPrefixOf (c :: t) then
        acc.reverse :: goSplitAux sep fuel ((c :: t).drop sep.length) []
      else
        goSplitAux sep fuel t (c :: acc)

/-- Go `strings.Split s sep`: all substrings of `s` separated by leftmost
non-overlapping occurrences of `sep` (for empty `sep`, one part per
character, as in Go). -/
def goSplit (s sep : Str) : List Str :=
  if sep.isEmpty then s.map (fun c => [c])
  else goSplitAux sep s.length s []

/-- The separator literal used by `extractVersion`. -/
def refSep : Str := "?ref=".data

/-- Source address marker for a local path, first form. -/
def dotSlash : Str := "./".data

/-- Source address marker for a local path, second form. -/
def dotDotSlash : Str := "../".data

/-- Sentinel for local modules. -/
def localVersion : Str := "local".data

/-- Sentinel for unknown versions. -/
def naVersion : Str := "N/A".data

/-- `extractVersion` from main.go.  Mirrors the Go control flow: explicit
version first; then the `strings.Contains`/`strings.Split` branch (Go
binds `parts := strings.Split(source, "?ref=")` inside the Contains
branch; hoisting the pure call does not change the result); then the
relative-path check; then the `"N/A"` default. -/
def extractVersion (modCall : ModuleCall) : Str :=
  if modCall.version ≠ [] then
    modCall.version
  else
    let source := modCall.source
    if goContains source refSep && (goSplit source refSep).length > 1 then
      (goSplit source refSep).get! 1
    else if goStartsWith source dotSlash || goStartsWith source dotDotSlash then
      localVersion
    else
      naVersion

/-- The message built by `fmt.Errorf("failed to load Terraform module: %v",
diag.Err())` in `generateSBOM`. -/
def loadFailureMsg (errMsg : Str) : Str :=
  "failed to load Terraform module: ".data ++ errMsg

/-- `generateSBOM` from main.go.  The call to `tfconfig.LoadModule` is
modelled by passing its result — the module and its diagnostics — as the
`loadResult` argument; the body is then the Go body verbatim: fail when
the diagnostics carry errors, otherwise map every module call to a
record. -/
def generateSBOM (configPath : Str) (loadResult : TfModule × Diagnostics) :
    Except Str SBOM :=
  match loadResult with
  | (tfMod, diag) =>
    if diag.hasErrors then
      Except.error (loadFailureMsg diag.errMsg)
    else
      Except.ok ⟨tfMod.moduleCalls.map (fun modCall =>
        { name := modCall.name
          source := modCall.source
          version := extractVersion modCall
          config := configPath })⟩

/-! ### Emitters

The CSV emitter is modelled at the level of records: a CSV file state is
the list of its rows, each row a list of fields (RFC-4180 quoting on the
byte level sits below this model).  A missing file is `none`.  The JSON
and XML emitters are modelled at the byte level as the full new file
contents; `os.Create` truncates, so the previous contents are an ignored
argument. -/

/-- The header row written by `writeSBOMToCSV` for a fresh file. -/
def csvHeader : List Str :=
  ["Config Path".data, "Module Name".data, "Source".data, "Version".data]

/-- `writeSBOMToCSV` from main.go as a file-state transformer: checks
`fileExists(outputPath)`, opens with `O_APPEND|O_CREATE` (so the starting
contents are the prior rows, or nothing), writes the header only when the
file did not exist, then appends one row per record with fields
`[config, name, source, version]`. -/
def writeSBOMToCSV (sbom : SBOM) (existingFile : Option (List (List Str))) :
    List (List Str) :=
  let fExists := existingFile.isSome
  let contents := existingFile.getD []
  let afterHeader := if !fExists then contents ++ [csvHeader] else contents
  afterHeader ++ sbom.modules.map (fun mod =>
    [mod.config, mod.name, mod.source, mod.version])

/-- A JSON string literal for a field value.  Models Go's
`encoding/json` string encoding for values, exact for strings containing
no character that Go escapes (true of every field this development
exercises). -/
def jsonQuote (s : Str) : Str := '"' :: (s ++ ['"'])

/-- One record as rendered inside the `modules` array by Go's
`json.Encoder` with `SetIndent("", "  ")`: keys `name`, `source`,
`version`, `config` in struct-tag order. -/
def encodeModuleJSON (m : ModuleInfo) : Str :=
  "    \x7b\n      \"name\": ".data ++ jsonQuote m.name ++
  ",\n      \"source\": ".data ++ jsonQuote m.source ++
  ",\n      \"version\": ".data ++ jsonQuote m.version ++
  ",\n      \"config\": ".data ++ jsonQuote m.config ++
  "\n    \x7d".data

/-- The whole document produced by `json.Encoder.Encode` on an `SBOM`
with two-space indentation: one object with a `modules` array (`null`
for the nil slice), plus the trailing newline `Encode` appends. -/
def encodeSBOMJSON (sbom : SBOM) : Str :=
  if sbom.modules.isEmpty then
    "\x7b\n  \"modules\": null\n\x7d\n".data
  else
    "\x7b\n  \"modules\": [\n".data ++
    List.intercalate (",\n".data) (sbom.modules.map encodeModuleJSON) ++
    "\n  ]\n\x7d\n".data

/-- Go's `xml.EscapeText` on one character (the five escaped characters;
others pass through). -/
def xmlEscapeChar (c : Char) : Str :=
  if c = '&' then "&amp;".data
  else if c = '<' then "&lt;".data
  else if c = '>' then "&gt;".data
  else if c = '\'' then "&#39;".data
  else if c = '"' then "&#34;".data
  else [c]

/-- Go's `xml.EscapeText` over a whole string. -/
def xmlEscape : Str → Str
  | [] => []
  | c :: t => xmlEscapeChar c ++ xmlEscape t

/-- One `Module` element as rendered by Go's `xml.Encoder` with
two-space indentation: children Name, Source, Version, ConfigPath in
struct order. -/
def encodeModuleXML (m : ModuleInfo) : Str :=
  "    <Module>\n      <Name>".data ++ xmlEscape m.name ++
  "</Name>\n      <Source>".data ++ xmlEscape m.source ++
  "</Source>\n      <Version>".data ++ xmlEscape m.version ++
  "</Version>\n      <ConfigPath>".data ++ xmlEscape m.config ++
  "</ConfigPath>\n    </Module>".data

/-- The whole document produced by `xml.Encoder.Encode` on an `SBOM`:
root `SBOM`, wrapper `Modules`, one `Module` per record. -/
def encodeSBOMXML (sbom : SBOM) : Str :=
  if sbom.modules.isEmpty then "<SBOM></SBOM>".data
  else
    "<SBOM>\n  <Modules>\n".data ++
    List.intercalate ("\n".data) (sbom.modules.map encodeModuleXML) ++
    "\n  </Modules>\n</SBOM>".data

/-- `writeSBOMToJSON` from main.go as a file-state transformer:
`os.Create` truncates the target, so the new contents are the encoding of
the SBOM alone, whatever the file held before. -/
def writeSBOMToJSON (sbom : SBOM) (_existingContent : Option Str) : Str :=
  encodeSBOMJSON sbom

/-- `writeSBOMToXML` from main.go as a file-state transformer, likewise
over `os.Create`. -/
def writeSBOMToXML (sbom : SBOM) (_existingContent : Option Str) : Str :=
  encodeSBOMXML sbom

/-! ### A JSON reader for the round-trip claim

A small parser for the JSON documents the emitter produces: one object
whose `modules` member is `null` or an array of flat objects with string
members.  It models what `json.Unmarshal` reads back into an `SBOM` for
such documents (string literals without escape sequences, which covers
every document in this development). -/

/-- Opening brace character. -/
def lbrace : Char := Char.ofNat 123

/-- Closing brace character. -/
def rbrace : Char := Char.ofNat 125

/-- Skip JSON whitespace. -/
def skipWs : Str → Str
  | [] => []
  | c :: t =>
    if c = ' ' || c = '\n' || c = '\t' || c = '\r' then skipWs t
    else c :: t

/-- Scan a JSON string body after its opening quote; returns the content
and the rest after the closing quote. -/
def scanJSONString : Str → Option (Str × Str)
  | [] => none
  | c :: t =>
    if c = '"' then some ([], t)
    else
      match scanJSONString t with
      | some (content, rest) => some (c :: content, rest)
      | none => none

/-- Parse the members of an object whose values are all strings, after
the opening brace; returns the key-value pairs and the rest after the
closing brace. -/
def parseJSONFields : Nat → Str → Option (List (Str × Str) × Str)
  | 0, _ => none
  | fuel + 1, s =>
    match skipWs s with
    | '"' :: t =>
      match scanJSONString t with
      | some (key, r1) =>
        match skipWs r1 with
        | ':' :: r2 =>
          match skipWs r2 with
          | '"' :: r3 =>
            match scanJSONString r3 with
            | some (value, r4) =>
              match skipWs r4 with
              | ',' :: r5 =>
                match parseJSONFields fuel r5 with
                | some (fields, r6) => some ((key, value) :: fields, r6)
                | none => none
              | c :: r5 =>
                if c = rbrace then some ([(key, value)], r5) else none
              | [] => none
            | none => none
          | _ => none
        | _ => none
      | none => none
    | _ => none

/-- The value for `key` among parsed members, or the zero value — the
empty string — when absent, as `json.Unmarshal` leaves it. -/
def lookupField (fields : List (Str × Str)) (key : Str) : Str :=
  match fields.find? (fun kv => kv.fst == key) with
  | some kv => kv.snd
  | none => []

/-- Rebuild one record from the members of its object. -/
def moduleFromFields (fields : List (Str × Str)) : ModuleInfo :=
  ⟨lookupField fields ("name".data), lookupField fields ("source".data),
   lookupField fields ("version".data), lookupField fields ("config".data)⟩

/-- Parse the elements of the `modules` array, after the opening
bracket; returns the records and the rest after the closing bracket. -/
def parseJSONModules : Nat → Str → Option (List ModuleInfo × Str)
  | 0, _ => none
  | fuel + 1, s =>
    match skipWs s with
    | c :: t =>
      if c = lbrace then
        match parseJSONFields fuel t with
        | some (fields, r1) =>
          match skipWs r1 with
          | ',' :: r2 =>
            match parseJSONModules fuel r2 with
            | some (mods, r3) => some (moduleFromFields fields :: mods, r3)
            | none => none
          | ']' :: r2 => some ([moduleFromFields fields], r2)
          | _ => none
        | none => none
      else none
    | [] => none

/-- Check the closing brace of the document and the end of input, and
assemble the SBOM. -/
def finishSBOM (mods : List ModuleInfo) (rest : Str) : Option SBOM :=
  match skipWs rest with
  | c :: r =>
    if c = rbrace then
      match skipWs r with
      | [] => some ⟨mods⟩
      | _ => none
    else none
  | [] => none

/-- Parse a whole SBOM document of the shape the JSON emitter writes. -/
def parseSBOMJSON (s : Str) : Option SBOM :=
  match skipWs s with
  | c :: t =>
    if c = lbrace then
      match skipWs t with
      | '"' :: r1 =>
        match scanJSONString r1 with
        | some (key, r2) =>
          if key == "modules".data then
            match skipWs r2 with
            | ':' :: r3 =>
              match skipWs r3 with
              | 'n' :: 'u' :: 'l' :: 'l' :: r4 => finishSBOM [] r4
              | '[' :: r4 =>
                match skipWs r4 with
                | ']' :: r5 => finishSBOM [] r5
                | _ =>
                  match parseJSONModules s.length r4 with
                  | some (mods, r5) => finishSBOM mods r5
                  | none => none
              | _ => none
            | _ => none
          else none
        | none => none
      | _ => none
    else none
  | [] => none

/-- The two module calls of the round-trip scenario in the spec and in
the repository's tests: a git source with `?ref=v2.0.0` and a registry
source, both without an explicit version. -/
def roundTripCalls : List ModuleCall :=
  [⟨"aws_vpc".data,
    "git::https://github.com/terraform-aws-modules/vpc.git?ref=v2.0.0".data,
    []⟩,
   ⟨"s3_bucket".data, "hashicorp/aws".data, []⟩]

/-- The SBOM the builder produces from `roundTripCalls`. -/
def roundTripSBOM : SBOM :=
  ⟨[⟨"aws_vpc".data,
     "git::https://github.com/terraform-aws-modules/vpc.git?ref=v2.0.0".data,
     "v2.0.0".data, "/path/to/config".data⟩,
    ⟨"s3_bucket".data, "hashicorp/aws".data, "N/A".data,
     "/path/to/config".data⟩]⟩

/-! ### Specification-side characterization of the ref extraction

The spec speaks of "the text after the first `?ref=`".  The two scanners
below express that directly, independently of `goSplit`: `refTailAfterFirst`
returns everything after the first occurrence of `?ref=` (or `none` when
there is no occurrence), and `segmentUntilNextRef` cuts that tail at the
next occurrence. -/

/-- Everything after the first occurrence of `?ref=` in `s`, or `none`
when `?ref=` does not occur in `s`. -/
def refTailAfterFirst : Str → Option Str
  | [] => none
  | c :: t =>
    if refSep.isPrefixOf (c :: t) then some ((c :: t).drop refSep.length)
    else refTailAfterFirst t

/-- The longest leading segment of `s` before an occurrence of `?ref=`
(all of `s` when there is no occurrence). -/
def segmentUntilNextRef : Str → Str
  | [] => []
  | c :: t =>
    if refSep.isPrefixOf (c :: t) then []
    else c :: segmentUntilNextRef t

theorem goContains_refSep_iff (s : Str) :
    goContains s refSep = (refTailAfterFirst s).isSome := by
  induction s with
  | nil => decide
  | cons c t ih =>
    simp only [goContains, refTailAfterFirst]
    cases hp : refSep.isPrefixOf (c :: t) <;> simp [ih]

theorem goSplitAux_head (fuel : Nat) :
    ∀ s acc : Str, s.length ≤ fuel →
      ∃ tail, goSplitAux refSep fuel s acc =
        (acc.reverse ++ segmentUntilNextRef s) :: tail := by
  induction fuel with
  | zero =>
    intro s acc h
    have hs : s = [] := List.length_eq_zero.mp (Nat.le_zero.mp h)
    subst hs
    exact ⟨[], by simp [goSplitAux, segmentUntilNextRef]⟩
  | succ fuel ih =>
    intro s acc h
    match s with
    | [] => exact ⟨[], by simp [goSplitAux, segmentUntilNextRef]⟩
    | c :: t =>
      cases hp : refSep.isPrefixOf (c :: t) with
      | true =>
        refine ⟨goSplitAux refSep fuel ((c :: t).drop refSep.length) [], ?_⟩
        simp [goSplitAux, hp, segmentUntilNextRef]
      | false =>
        have hlen : t.length ≤ fuel := by
          have := h; simp only [List.length_cons] at this; omega
        obtain ⟨tail, htail⟩ := ih t (c :: acc) hlen
        refine ⟨tail, ?_⟩
        simp only [goSplitAux, hp, Bool.false_eq_true, if_false, htail,
          segmentUntilNextRef, List.reverse_cons, List.append_assoc,
          List.cons_append, List.nil_append]

theorem goSplitAux_second (fuel : Nat) :
    ∀ s acc b : Str, s.length ≤ fuel → refTailAfterFirst s = some b →
      ∃ tail, goSplitAux refSep fuel s acc =
        (acc.reverse ++ segmentUntilNextRef s) :: segmentUntilNextRef b :: tail := by
  induction fuel with
  | zero =>
    intro s acc b h hb
    have hs : s = [] := List.length_eq_zero.mp (Nat.le_zero.mp h)
    subst hs
    simp [refTailAfterFirst] at hb
  | succ fuel ih =>
    intro s acc b h hb
    match s with
    | [] => simp [refTailAfterFirst] at hb
    | c :: t =>
      cases hp : refSep.isPrefixOf (c :: t) with
      | true =>
        have hb' : b = (c :: t).drop refSep.length := by
          rw [refTailAfterFirst, if_pos hp] at hb
          exact (Option.some.injEq _ _ ▸ hb).symm
        subst hb'
        have hsep : refSep.length = 5 := rfl
        have hlen : ((c :: t).drop refSep.length).length ≤ fuel := by
          simp only [List.length_drop, List.length_cons, hsep]
          simp only [List.length_cons] at h
          omega
        obtain ⟨tail, htail⟩ := goSplitAux_head fuel ((c :: t).drop refSep.length) [] hlen
        refine ⟨tail, ?_⟩
        simp only [goSplitAux, hp, if_true, htail, List.reverse_nil,
          List.nil_append]
        rw [segmentUntilNextRef, if_pos hp]
        simp
      | false =>
        have hb' : refTailAfterFirst t = some b := by
          rw [refTailAfterFirst, if_neg (by simp [hp])] at hb
          exact hb
        have hlen : t.length ≤ fuel := by
          simp only [List.length_cons] at h; omega
        obtain ⟨tail, htail⟩ := ih t (c :: acc) b hlen hb'
        refine ⟨tail, ?_⟩
        simp only [goSplitAux, hp, Bool.false_eq_true, if_false, htail]
        rw [segmentUntilNextRef, if_neg (by simp [hp])]
        simp

theorem goSplit_refSep_of_refTail_some (s b : Str)
    (hb : refTailAfterFirst s = some b) :
    (goSplit s refSep).length > 1 ∧
      (goSplit s refSep).get! 1 = segmentUntilNextRef b := by
  obtain ⟨tail, htail⟩ := goSplitAux_second s.length s [] b (Nat.le_refl _) hb
  have hne : refSep.isEmpty = false := rfl
  unfold goSplit
  rw [hne]
  simp only [Bool.false_eq_true, if_false, htail]
  constructor
  · simp
  · rfl

/-- Helper: with a non-empty explicit version, `extractVersion` returns
it. -/
theorem extractVersion_explicit_aux (c : ModuleCall) (h : c.version ≠ []) :
    extractVersion c = c.version := by
  unfold extractVersion
  rw [if_pos h]

/-- Helper: with no explicit version and an occurrence of `?ref=`,
`extractVersion` returns the tail after the first occurrence, cut at the
next occurrence. -/
theorem extractVersion_refTail_aux (c : ModuleCall) (b : Str)
    (h1 : c.version = []) (h2 : refTailAfterFirst c.source = some b) :
    extractVersion c = segmentUntilNextRef b := by
  obtain ⟨hlen, hget⟩ := goSplit_refSep_of_refTail_some c.source b h2
  have hcont : goContains c.source refSep = true := by
    rw [goContains_refSep_iff, h2]; rfl
  unfold extractVersion
  rw [if_neg (by simp [h1])]
  simp only [hcont, Bool.true_and]
  rw [if_pos (by simpa using hlen)]
  exact hget

/-- Helper: with no explicit version and no `?ref=` occurrence,
`extractVersion` falls through to the local / N-A rules. -/
theorem extractVersion_noRef_aux (c : ModuleCall)
    (h1 : c.version = []) (h2 : refTailAfterFirst c.source = none) :
    extractVersion c =
      if goStartsWith c.source dotSlash || goStartsWith c.source dotDotSlash
      then localVersion else naVersion := by
  have hcont : goContains c.source refSep = false := by
    rw [goContains_refSep_iff, h2]; rfl
  unfold extractVersion
  rw [if_neg (by simp [h1])]
  simp only [hcont, Bool.false_and, Bool.false_eq_true, if_false]

/-! ### Claims C1, C2, C7, C8: the version heuristic -/

/-- C1 counterexample: the claim says that for an empty explicit version
and a source containing `?ref=`, `extractVersion` returns everything after
the first `?ref=`, *including any later `?ref=` occurrences*.  On the
source `git::x?ref=a?ref=b`, everything after the first `?ref=` is
`a?ref=b`, but `strings.Split` cuts at every occurrence and the code
returns `parts[1] = "a"`. -/
theorem extractVersion_multiRef_counterexample :
    extractVersion ⟨"m".data, "git::x?ref=a?ref=b".data, []⟩ = "a".data ∧
      "a".data ≠ "a?ref=b".data := by
  decide

/-- C1 (amended): for every module call whose explicit version is empty
and whose source contains `?ref=`, `extractVersion` returns the substring
of the source after the first occurrence of `?ref=`, cut at (not
including) the next occurrence of `?ref=`, if any. -/
theorem extractVersion_first_ref_segment (c : ModuleCall) (b : Str)
    (h1 : c.version = []) (h2 : refTailAfterFirst c.source = some b) :
    extractVersion c = segmentUntilNextRef b :=
  extractVersion_refTail_aux c b h1 h2

/-- C1 witness: concrete module call with a single `?ref=v1.2.3`. -/
theorem extractVersion_first_ref_segment_witness :
    refTailAfterFirst ("git::repo?ref=v1.2.3".data) = some ("v1.2.3".data) ∧
      extractVersion ⟨"m".data, "git::repo?ref=v1.2.3".data, []⟩ =
        segmentUntilNextRef ("v1.2.3".data) :=
  ⟨by decide,
   extractVersion_first_ref_segment ⟨"m".data, "git::repo?ref=v1.2.3".data, []⟩
     ("v1.2.3".data) rfl (by decide)⟩

/-- C2 counterexample: the claim says `extractVersion` never returns the
empty string and that a source whose `?ref=` is followed by nothing falls
through to the local rule.  On `./mod?ref=` with no explicit version the
code returns `parts[1] = ""` — the empty string, not `"local"`. -/
theorem extractVersion_emptyRef_counterexample :
    extractVersion ⟨"m".data, "./mod?ref=".data, []⟩ = [] ∧
      localVersion ≠ ([] : Str) := by
  decide

/-- C2 (amended): every result of `extractVersion` is the explicit
declared version, or the (possibly empty) segment of the source after the
first `?ref=` and before the next one, or the sentinel `local`, or the
sentinel `N/A`.  In particular, when the source contains `?ref=` followed
by nothing the result is the empty string — the malformed case does not
fall through. -/
theorem extractVersion_version_range (c : ModuleCall) :
    (c.version ≠ [] ∧ extractVersion c = c.version) ∨
    (c.version = [] ∧ ∃ b, refTailAfterFirst c.source = some b ∧
      extractVersion c = segmentUntilNextRef b) ∨
    (c.version = [] ∧ refTailAfterFirst c.source = none ∧
      (extractVersion c = localVersion ∨ extractVersion c = naVersion)) := by
  by_cases hv : c.version = []
  · cases hb : refTailAfterFirst c.source with
    | none =>
      refine Or.inr (Or.inr ⟨hv, rfl, ?_⟩)
      rw [extractVersion_noRef_aux c hv hb]
      by_cases hl :
          (goStartsWith c.source dotSlash || goStartsWith c.source dotDotSlash) = true
      · exact Or.inl (by rw [if_pos hl])
      · exact Or.inr (by rw [if_neg hl])
    | some b =>
      exact Or.inr (Or.inl ⟨hv, b, rfl, extractVersion_refTail_aux c b hv hb⟩)
  · exact Or.inl ⟨hv, extractVersion_explicit_aux c hv⟩

/-- C7 (confirmed): a non-empty explicit version is returned unchanged,
whatever the source contains. -/
theorem extractVersion_explicit_version (c : ModuleCall)
    (h : c.version ≠ []) : extractVersion c = c.version :=
  extractVersion_explicit_aux c h

/-- C7 witness: explicit version wins even over a `?ref=` in the source. -/
theorem extractVersion_explicit_version_witness :
    ("1.2.3".data : Str) ≠ [] ∧
      extractVersion ⟨"m".data, "git::x?ref=zzz".data, "1.2.3".data⟩ =
        "1.2.3".data :=
  ⟨by decide,
   extractVersion_explicit_version ⟨"m".data, "git::x?ref=zzz".data, "1.2.3".data⟩
     (by decide)⟩

/-- C8 (confirmed): with no explicit version and no `?ref=` in the
source, `extractVersion` returns `local` exactly when the source starts
with `./` or `../`, and `N/A` otherwise. -/
theorem extractVersion_local_or_na (c : ModuleCall)
    (h1 : c.version = []) (h2 : goContains c.source refSep = false) :
    extractVersion c =
      if goStartsWith c.source dotSlash || goStartsWith c.source dotDotSlash
      then localVersion else naVersion := by
  have hb : refTailAfterFirst c.source = none := by
    rw [goContains_refSep_iff] at h2
    exact Option.not_isSome_iff_eq_none.mp (by simp [h2])
  exact extractVersion_noRef_aux c h1 hb

/-- C8 witness: a relative-path source yields `local`; a registry source
yields `N/A`. -/
theorem extractVersion_local_or_na_witness :
    goContains ("./modules/net".data) refSep = false ∧
      extractVersion ⟨"m".data, "./modules/net".data, []⟩ =
        (if goStartsWith ("./modules/net".data) dotSlash ||
            goStartsWith ("./modules/net".data) dotDotSlash
         then localVersion else naVersion) :=
  ⟨by decide,
   extractVersion_local_or_na ⟨"m".data, "./modules/net".data, []⟩
     rfl (by decide)⟩

/-! ### Claims C3, C5, C6: the SBOM builder -/

/-- C3 counterexample: the claim says two runs on the same collaborator
result produce records in the same order.  `module.ModuleCalls` is a Go
map and the Go language specification leaves `range` order unspecified
(the runtime actively varies it), so two runs over the same two-element
map may observe the two permutations below — and they give SBOMs with
records in different orders. -/
theorem generateSBOM_iteration_order_counterexample :
    List.Perm
      [(⟨"a".data, "./a".data, []⟩ : ModuleCall), ⟨"b".data, "./b".data, []⟩]
      [⟨"b".data, "./b".data, []⟩, ⟨"a".data, "./a".data, []⟩] ∧
    generateSBOM ("cfg".data)
        (⟨[⟨"a".data, "./a".data, []⟩, ⟨"b".data, "./b".data, []⟩]⟩, ⟨false, []⟩) ≠
      generateSBOM ("cfg".data)
        (⟨[⟨"b".data, "./b".data, []⟩, ⟨"a".data, "./a".data, []⟩]⟩, ⟨false, []⟩) := by
  constructor
  · decide
  · intro h
    have h2 := Except.ok.inj h
    have h3 := congrArg SBOM.modules h2
    simp [generateSBOM, extractVersion] at h3

/-- C3 (amended): for a fixed iteration sequence of the collaborator's
module-call map, `generateSBOM` is deterministic and emits exactly one
record per call, in that iteration order, with no resorting, regrouping
or deduplication.  Across runs, however, the iteration order of the Go
map is unspecified, so the record order is only as stable as the
runtime's map iteration (see the counterexample). -/
theorem generateSBOM_fixed_iteration_deterministic (p : Str)
    (tfMod : TfModule) (diag : Diagnostics) (h : diag.hasErrors = false) :
    generateSBOM p (tfMod, diag) = generateSBOM p (tfMod, diag) ∧
    ∃ sbom, generateSBOM p (tfMod, diag) = Except.ok sbom ∧
      sbom.modules.map (fun r => (r.name, r.source)) =
        tfMod.moduleCalls.map (fun c => (c.name, c.source)) := by
  refine ⟨rfl, ⟨⟨tfMod.moduleCalls.map (fun modCall =>
      ⟨modCall.name, modCall.source, extractVersion modCall, p⟩)⟩, ?_, ?_⟩⟩
  · simp [generateSBOM, h]
  · simp only [List.map_map]
    rfl

/-- C3 witness: one concrete run with two module calls. -/
theorem generateSBOM_fixed_iteration_deterministic_witness :
    generateSBOM ("cfg".data)
        (⟨[⟨"a".data, "./a".data, []⟩, ⟨"b".data, "./b".data, []⟩]⟩, ⟨false, []⟩) =
      generateSBOM ("cfg".data)
        (⟨[⟨"a".data, "./a".data, []⟩, ⟨"b".data, "./b".data, []⟩]⟩, ⟨false, []⟩) ∧
    ∃ sbom, generateSBOM ("cfg".data)
        (⟨[⟨"a".data, "./a".data, []⟩, ⟨"b".data, "./b".data, []⟩]⟩, ⟨false, []⟩) =
          Except.ok sbom ∧
      sbom.modules.map (fun r => (r.name, r.source)) =
        (⟨[⟨"a".data, "./a".data, []⟩, ⟨"b".data, "./b".data, []⟩]⟩ :
            TfModule).moduleCalls.map (fun c => (c.name, c.source)) :=
  generateSBOM_fixed_iteration_deterministic ("cfg".data)
    ⟨[⟨"a".data, "./a".data, []⟩, ⟨"b".data, "./b".data, []⟩]⟩ ⟨false, []⟩ rfl

/-- C5 (confirmed): `generateSBOM` fails exactly when the collaborator's
diagnostics report an error, with a message wrapping the collaborator's
diagnostic; an `Except.error` carries no records, so no partial SBOM is
produced.  It succeeds exactly when no error is reported. -/
theorem generateSBOM_load_error (p : Str) (tfMod : TfModule)
    (diag : Diagnostics) :
    (diag.hasErrors = true →
      generateSBOM p (tfMod, diag) =
        Except.error (loadFailureMsg diag.errMsg)) ∧
    (diag.hasErrors = false →
      ∃ sbom, generateSBOM p (tfMod, diag) = Except.ok sbom) := by
  constructor
  · intro h
    simp [generateSBOM, h]
  · intro h
    refine ⟨⟨tfMod.moduleCalls.map (fun modCall =>
        ⟨modCall.name, modCall.source, extractVersion modCall, p⟩)⟩, ?_⟩
    simp [generateSBOM, h]

/-- C5 witness: a failing load and a succeeding load. -/
theorem generateSBOM_load_error_witness :
    generateSBOM ("cfg".data) (⟨[]⟩, ⟨true, "boom".data⟩) =
        Except.error (loadFailureMsg ("boom".data)) ∧
      ∃ sbom, generateSBOM ("cfg".data) (⟨[]⟩, ⟨false, []⟩) = Except.ok sbom :=
  ⟨(generateSBOM_load_error ("cfg".data) ⟨[]⟩ ⟨true, "boom".data⟩).1 rfl,
   (generateSBOM_load_error ("cfg".data) ⟨[]⟩ ⟨false, []⟩).2 rfl⟩

/-- C6 (confirmed): on success, one record per module call, with name and
source copied verbatim, config equal to the configPath argument, and
version equal to `extractVersion` of the call. -/
theorem generateSBOM_record_fields (p : Str) (tfMod : TfModule)
    (diag : Diagnostics) (h : diag.hasErrors = false) :
    ∃ sbom, generateSBOM p (tfMod, diag) = Except.ok sbom ∧
      sbom.modules.length = tfMod.moduleCalls.length ∧
      ∀ i : Nat, sbom.modules[i]? = (tfMod.moduleCalls[i]?).map
        (fun c => ⟨c.name, c.source, extractVersion c, p⟩) := by
  refine ⟨⟨tfMod.moduleCalls.map (fun c =>
      ⟨c.name, c.source, extractVersion c, p⟩)⟩, ?_, ?_, ?_⟩
  · simp [generateSBOM, h]
  · simp
  · intro i
    simp [List.getElem?_map]

/-- C6 witness: a concrete two-call configuration. -/
theorem generateSBOM_record_fields_witness :
    ∃ sbom, generateSBOM ("cfg".data)
        (⟨[⟨"a".data, "./a".data, []⟩, ⟨"b".data, "reg/b".data, []⟩]⟩,
          ⟨false, []⟩) = Except.ok sbom ∧
      sbom.modules.length =
        (⟨[⟨"a".data, "./a".data, []⟩, ⟨"b".data, "reg/b".data, []⟩]⟩ :
            TfModule).moduleCalls.length ∧
      ∀ i : Nat, sbom.modules[i]? =
        ((⟨[⟨"a".data, "./a".data, []⟩, ⟨"b".data, "reg/b".data, []⟩]⟩ :
            TfModule).moduleCalls[i]?).map
          (fun c => ⟨c.name, c.source, extractVersion c, "cfg".data⟩) :=
  generateSBOM_record_fields ("cfg".data)
    ⟨[⟨"a".data, "./a".data, []⟩, ⟨"b".data, "reg/b".data, []⟩]⟩
    ⟨false, []⟩ rfl

/-! ### Claims C4, C9, C10: the emitters -/

/-- C4 (confirmed): the CSV emitter writes each record with field order
`[configPath, name, source, version]`, writes the header row only when
the target did not exist, and appends when it did; writing SBOM A to a
fresh path and then SBOM B to the same path yields the header once, then
A's rows, then B's rows, in that order. -/
theorem writeSBOMToCSV_header_and_append :
    (∀ sbomA sbomB : SBOM,
      writeSBOMToCSV sbomB (some (writeSBOMToCSV sbomA none)) =
        csvHeader ::
          (sbomA.modules.map (fun mod =>
              [mod.config, mod.name, mod.source, mod.version]) ++
           sbomB.modules.map (fun mod =>
              [mod.config, mod.name, mod.source, mod.version]))) ∧
    (∀ (sbom : SBOM) (f : List (List Str)),
      writeSBOMToCSV sbom (some f) =
        f ++ sbom.modules.map (fun mod =>
          [mod.config, mod.name, mod.source, mod.version])) ∧
    (∀ sbom : SBOM,
      writeSBOMToCSV sbom none =
        csvHeader :: sbom.modules.map (fun mod =>
          [mod.config, mod.name, mod.source, mod.version])) := by
  refine ⟨?_, ?_, ?_⟩ <;> intros <;> simp [writeSBOMToCSV]

/-- C9 (confirmed): the JSON and XML emitters fully overwrite the
target: after writing SBOM A and then SBOM B to the same path, the file
holds exactly B's serialization, the same as writing B to a fresh path —
no append semantics. -/
theorem writeSBOM_json_xml_overwrite :
    ∀ (sbomA sbomB : SBOM) (prev : Option Str),
      writeSBOMToJSON sbomB (some (writeSBOMToJSON sbomA prev)) =
          writeSBOMToJSON sbomB none ∧
        writeSBOMToJSON sbomB (some (writeSBOMToJSON sbomA prev)) =
          encodeSBOMJSON sbomB ∧
        writeSBOMToXML sbomB (some (writeSBOMToXML sbomA prev)) =
          writeSBOMToXML sbomB none ∧
        writeSBOMToXML sbomB (some (writeSBOMToXML sbomA prev)) =
          encodeSBOMXML sbomB :=
  fun _ _ _ => ⟨rfl, rfl, rfl, rfl⟩

set_option maxRecDepth 10000 in
/-- C10 (confirmed): building the SBOM from the two round-trip records
(versions inferred as `v2.0.0` via the ref and `N/A`), emitting it with
the JSON emitter and re-parsing the document yields exactly the original
records. -/
theorem sbom_json_roundtrip :
    generateSBOM ("/path/to/config".data) (⟨roundTripCalls⟩, ⟨false, []⟩) =
        Except.ok roundTripSBOM ∧
      parseSBOMJSON (writeSBOMToJSON roundTripSBOM none) =
        some roundTripSBOM ∧
      roundTripSBOM.modules.map ModuleInfo.version =
        ["v2.0.0".data, "N/A".data] :=
  ⟨by rfl, by decide, by decide⟩

end TerraformSbom
